import Mathlib

/-!
Verification development for the side-server custom-colors plugin
(src/side-server/chat-plugins/customization/custom-colors.ts).

The plugin assigns each user identifier a display color: an explicit
override table has highest priority, then an in-memory cache, then a
deterministic pipeline MD5 -> (H, S, L) seeds -> HSL-to-RGB conversion ->
luminance-based lightness correction -> second conversion -> hex string.

Numbers flowing through the color pipeline are embedded as rationals;
JavaScript integer and string operations are embedded as Nat / List Char
operations.  The host framework primitives (toID canonicalization, the
MD5 implementation of the crypto library) are not part of the repository
sources and are modelled from the spec, faithful to their documented
behavior.
-/

attribute [local semireducible] Rat.add Rat.sub Rat.mul Rat.inv Rat.ofScientific

namespace SideServer

/-! ## Character and string helpers -/

/-- A character counts as a lowercase-alphanumeric identifier character. -/
def isIdChar (c : Char) : Bool :=
  ('a' ≤ c && c ≤ 'z') || ('0' ≤ c && c ≤ '9')

/-- Modelled from the spec: the host framework canonicalization rule for
identifiers (case-insensitive, strips non-alphanumeric characters), used by
the plugin as toID from sim/dex. -/
def toID (text : String) : String :=
  String.mk ((text.data.map Char.toLower).filter isIdChar)

/-- A hex digit in the sense of the validation regex character class. -/
def isHexDigit (c : Char) : Bool :=
  ('0' ≤ c && c ≤ '9') || ('A' ≤ c && c ≤ 'F') || ('a' ≤ c && c ≤ 'f')

/-- Numeric value of a hex digit character (0 for non-hex input). -/
def hexDigitVal (c : Char) : Nat :=
  if '0' ≤ c && c ≤ '9' then c.toNat - 48
  else if 'a' ≤ c && c ≤ 'f' then c.toNat - 87
  else if 'A' ≤ c && c ≤ 'F' then c.toNat - 55
  else 0

/-- Lowercase hex digit character for a value below 16, as produced by the
JavaScript number toString in base 16. -/
def hexDigitChar (n : Nat) : Char :=
  match n with
  | 0 => '0' | 1 => '1' | 2 => '2' | 3 => '3' | 4 => '4'
  | 5 => '5' | 6 => '6' | 7 => '7' | 8 => '8' | 9 => '9'
  | 10 => 'a' | 11 => 'b' | 12 => 'c' | 13 => 'd' | 14 => 'e'
  | _ => 'f'

/-- Embedding of the JavaScript parseInt(s, 16) on the all-hex-digit strings
the plugin feeds it (4-character slices of an MD5 hex digest). -/
def parseIntHex (s : String) : Nat :=
  s.data.foldl (fun acc c => acc * 16 + hexDigitVal c) 0

/-- Embedding of the JavaScript string slice(i, j) for 0 <= i <= j. -/
def strSlice (s : String) (i j : Nat) : String :=
  String.mk ((s.data.drop i).take (j - i))

/-! ## MD5 (modelled from the spec)

Modelled from the spec: the plugin computes a 128-bit MD5 content hash of
the normalized key through the external crypto library, which is not part
of the repository sources.  The definitions below are the standard MD5 of
RFC 1321, producing the lowercase hex digest the code slices. -/

/-- UTF-8 bytes of one character. -/
def charUtf8 (c : Char) : List Nat :=
  let n := c.toNat
  if n < 128 then [n]
  else if n < 2048 then [192 + n / 64, 128 + n % 64]
  else if n < 65536 then [224 + n / 4096, 128 + (n / 64) % 64, 128 + n % 64]
  else [240 + n / 262144, 128 + (n / 4096) % 64, 128 + (n / 64) % 64, 128 + n % 64]

/-- UTF-8 bytes of a string, the input fed to the hash. -/
def utf8Bytes (s : String) : List Nat :=
  (s.data.map charUtf8).flatten

/-- The 64 MD5 round constants (integer parts of abs-sine values scaled
by 2 to the 32, per RFC 1321). -/
def md5K : List Nat :=
  [3614090360, 3905402710, 606105819, 3250441966, 4118548399, 1200080426, 2821735955, 4249261313,
   1770035416, 2336552879, 4294925233, 2304563134, 1804603682, 4254626195, 2792965006, 1236535329,
   4129170786, 3225465664, 643717713, 3921069994, 3593408605, 38016083, 3634488961, 3889429448,
   568446438, 3275163606, 4107603335, 1163531501, 2850285829, 4243563512, 1735328473, 2368359562,
   4294588738, 2272392833, 1839030562, 4259657740, 2763975236, 1272893353, 4139469664, 3200236656,
   681279174, 3936430074, 3572445317, 76029189, 3654602809, 3873151461, 530742520, 3299628645,
   4096336452, 1126891415, 2878612391, 4237533241, 1700485571, 2399980690, 4293915773, 2240044497,
   1873313359, 4264355552, 2734768916, 1309151649, 4149444226, 3174756917, 718787259, 3951481745]

/-- The 64 MD5 per-round left-rotation amounts. -/
def md5S : List Nat :=
  [7, 12, 17, 22, 7, 12, 17, 22, 7, 12, 17, 22, 7, 12, 17, 22,
   5, 9, 14, 20, 5, 9, 14, 20, 5, 9, 14, 20, 5, 9, 14, 20,
   4, 11, 16, 23, 4, 11, 16, 23, 4, 11, 16, 23, 4, 11, 16, 23,
   6, 10, 15, 21, 6, 10, 15, 21, 6, 10, 15, 21, 6, 10, 15, 21]

/-- Left rotation of a 32-bit word. -/
def rotl32 (x n : Nat) : Nat :=
  ((x <<< n) + (x >>> (32 - n))) % 2 ^ 32

/-- Bitwise complement within 32 bits. -/
def not32 (x : Nat) : Nat := x ^^^ 4294967295

/-- MD5 auxiliary function F. -/
def md5F (b c d : Nat) : Nat := (b &&& c) ||| (not32 b &&& d)

/-- MD5 auxiliary function G. -/
def md5G (b c d : Nat) : Nat := (d &&& b) ||| (not32 d &&& c)

/-- MD5 auxiliary function H. -/
def md5H (b c d : Nat) : Nat := b ^^^ c ^^^ d

/-- MD5 auxiliary function I. -/
def md5I (b c d : Nat) : Nat := c ^^^ (b ||| not32 d)

/-- Little-endian 32-bit word from four bytes. -/
def leWord (b0 b1 b2 b3 : Nat) : Nat :=
  b0 + b1 * 256 + b2 * 65536 + b3 * 16777216

/-- Group a byte list into little-endian 32-bit words. -/
def bytesToWords : List Nat → List Nat
  | b0 :: b1 :: b2 :: b3 :: rest => leWord b0 b1 b2 b3 :: bytesToWords rest
  | _ => []

/-- The eight little-endian bytes of the 64-bit message bit length. -/
def md5LenBytes (len : Nat) : List Nat :=
  (List.range 8).map (fun i => ((len * 8) >>> (8 * i)) % 256)

/-- MD5 padding: append the 0x80 byte, zero bytes to 56 mod 64, then the
bit length. -/
def md5Pad (msg : List Nat) : List Nat :=
  let len := msg.length
  let zeros := (56 + 64 - ((len + 1) % 64)) % 64
  msg ++ 128 :: List.replicate zeros 0 ++ md5LenBytes len

/-- Split a byte list into chunks of 64 bytes (structural recursion on a
fuel bound so the definition reduces; the fuel never runs out because each
step removes at least one byte). -/
def chunks64Go : Nat → List Nat → List (List Nat)
  | 0, _ => []
  | _, [] => []
  | fuel + 1, bs => bs.take 64 :: chunks64Go fuel (bs.drop 64)

/-- Split a byte list into chunks of 64 bytes. -/
def chunks64 (bs : List Nat) : List (List Nat) :=
  chunks64Go bs.length bs

/-- One of the 64 MD5 rounds, acting on the running (a, b, c, d) state. -/
def md5Round (M : List Nat) (st : Nat × Nat × Nat × Nat) (i : Nat) :
    Nat × Nat × Nat × Nat :=
  let (a, b, c, d) := st
  let f :=
    if i < 16 then md5F b c d
    else if i < 32 then md5G b c d
    else if i < 48 then md5H b c d
    else md5I b c d
  let g :=
    if i < 16 then i
    else if i < 32 then (5 * i + 1) % 16
    else if i < 48 then (3 * i + 5) % 16
    else (7 * i) % 16
  let tmp := (f + a + md5K.getD i 0 + M.getD g 0) % 2 ^ 32
  (d, (b + rotl32 tmp (md5S.getD i 0)) % 2 ^ 32, b, c)

/-- Process one 64-byte block. -/
def md5Block (st : Nat × Nat × Nat × Nat) (chunk : List Nat) :
    Nat × Nat × Nat × Nat :=
  let M := bytesToWords chunk
  let r := (List.range 64).foldl (md5Round M) st
  ((st.1 + r.1) % 2 ^ 32, (st.2.1 + r.2.1) % 2 ^ 32,
   (st.2.2.1 + r.2.2.1) % 2 ^ 32, (st.2.2.2 + r.2.2.2) % 2 ^ 32)

/-- MD5 state words for a byte message. -/
def md5Words (msg : List Nat) : Nat × Nat × Nat × Nat :=
  (chunks64 (md5Pad msg)).foldl md5Block
    (1732584193, 4023233417, 2562383102, 271733878)

/-- Two lowercase hex characters of one byte. -/
def byteToHex (b : Nat) : List Char :=
  [hexDigitChar (b / 16), hexDigitChar (b % 16)]

/-- Hex rendering of a 32-bit word, little-endian byte order as in an MD5
digest. -/
def wordToHexLE (w : Nat) : List Char :=
  byteToHex (w % 256) ++ byteToHex ((w >>> 8) % 256) ++
  byteToHex ((w >>> 16) % 256) ++ byteToHex ((w >>> 24) % 256)

/-- The 32-character lowercase hex MD5 digest of a string. -/
def md5hex (s : String) : String :=
  let r := md5Words (utf8Bytes s)
  String.mk (wordToHexLE r.1 ++ wordToHexLE r.2.1 ++
    wordToHexLE r.2.2.1 ++ wordToHexLE r.2.2.2)

/-! ## Rational embeddings of the JavaScript numeric primitives -/

/-- Embedding of Math.abs on the rationals. -/
def jsAbs (q : ℚ) : ℚ := if q < 0 then -q else q

/-- Truncation toward zero, the rounding JavaScript uses for the remainder
operator. -/
def ratTrunc (q : ℚ) : ℤ := if 0 ≤ q then ⌊q⌋ else ⌈q⌉

/-- Embedding of the JavaScript remainder operator a % b on numbers. -/
def jsFmod (a b : ℚ) : ℚ := a - b * ratTrunc (a / b)

/-- Embedding of Math.round: round half toward positive infinity. -/
def jsRound (x : ℚ) : ℤ := ⌊x + 1 / 2⌋

/-- Base-16 rendering of a natural number, most significant digit first
(structural recursion on a fuel bound that never runs out). -/
def natToHexGo : Nat → Nat → List Char
  | 0, _ => []
  | fuel + 1, n =>
    if n < 16 then [hexDigitChar n]
    else natToHexGo fuel (n / 16) ++ [hexDigitChar (n % 16)]

/-- Base-16 rendering of a natural number. -/
def natToHexChars (n : Nat) : List Char := natToHexGo (n + 1) n

/-- Embedding of the JavaScript number toString(16) on integers. -/
def intToHexStr (i : ℤ) : String :=
  if i < 0 then String.mk ('-' :: natToHexChars i.natAbs)
  else String.mk (natToHexChars i.toNat)

/-! ## The color pipeline (custom-colors.ts, lines 67 to 116) -/

/-- Red, green and blue channels in the unit interval. -/
structure RGB where
  R : ℚ
  G : ℚ
  B : ℚ

/-- The chroma C of HSLToRGB (custom-colors.ts line 68). -/
def chromaOf (S L : ℚ) : ℚ := (100 - jsAbs (2 * L - 100)) * S / 100 / 100

/-- The intermediate value X of HSLToRGB (custom-colors.ts line 69). -/
def xOf (H S L : ℚ) : ℚ := chromaOf S L * (1 - jsAbs (jsFmod (H / 60) 2 - 1))

/-- The lightness offset m of HSLToRGB (custom-colors.ts line 70). -/
def mOf (S L : ℚ) : ℚ := L / 100 - chromaOf S L / 2

/-- HSL to RGB conversion, from HSLToRGB in custom-colors.ts: chroma,
intermediate value, match on the 60-degree hue sector, then add the
lightness offset m to every channel. -/
def HSLToRGB (H S L : ℚ) : RGB :=
  let C := chromaOf S L
  let X := xOf H S L
  let m := mOf S L
  let hCase := ⌊H / 60⌋
  if hCase = 0 then ⟨C + m, X + m, 0 + m⟩
  else if hCase = 1 then ⟨X + m, C + m, 0 + m⟩
  else if hCase = 2 then ⟨0 + m, C + m, X + m⟩
  else if hCase = 3 then ⟨0 + m, X + m, C + m⟩
  else if hCase = 4 then ⟨X + m, 0 + m, C + m⟩
  else if hCase = 5 then ⟨C + m, 0 + m, X + m⟩
  else ⟨0 + m, 0 + m, 0 + m⟩

/-- The cubic-weighted luminance estimate of custom-colors.ts line 96. -/
def lumOf (c : RGB) : ℚ :=
  c.R * c.R * c.R * 0.2126 + c.G * c.G * c.G * 0.7152 + c.B * c.B * c.B * 0.0722

/-- The lightness correction of custom-colors.ts lines 97 to 102: the raw
delta, the rescale and dampen branches, and the hue-distance boost near
180 and 240 degrees. -/
def codeCorrection (H : Nat) (lum : ℚ) : ℚ :=
  let HLmod0 := (lum - 0.2) * (-150)
  let HLmod1 :=
    if HLmod0 > 18 then (HLmod0 - 18) * 2.5
    else if HLmod0 < 0 then HLmod0 / 3
    else HLmod0
  let Hdist := min (jsAbs (180 - (H : ℚ))) (jsAbs (240 - (H : ℚ)))
  if Hdist < 15 then HLmod1 + (15 - Hdist) / 3 else HLmod1

/-- Zero-padding of a one-digit hex rendering, custom-colors.ts line 110. -/
def toHexPad (i : ℤ) : String :=
  let hex := intToHexStr i
  if hex.length = 1 then "0" ++ hex else hex

/-- Two-digit hex formatting of one channel, from toHex in
custom-colors.ts lines 108 to 111. -/
def toHex (x : ℚ) : String :=
  toHexPad (jsRound (x * 255))

/-- The hash-derived color as a function of the three integer seeds,
custom-colors.ts lines 94 to 113: first conversion, luminance-based
lightness correction, second conversion, hex formatting. -/
def colorFromSeeds (H S L0 : Nat) : String :=
  let rgb1 := HSLToRGB (H : ℚ) (S : ℚ) (L0 : ℚ)
  let L1 : ℚ := (L0 : ℚ) + codeCorrection H (lumOf rgb1)
  let rgb2 := HSLToRGB (H : ℚ) (S : ℚ) L1
  "#" ++ toHex rgb2.R ++ toHex rgb2.G ++ toHex rgb2.B

/-- The hue seed: nibbles 4 to 8 of the digest, reduced mod 360
(custom-colors.ts line 90). -/
def hueSeed (id : String) : Nat :=
  parseIntHex (strSlice (md5hex id) 4 8) % 360

/-- The saturation seed: nibbles 0 to 4 of the digest, reduced mod 50 and
shifted by 40 (custom-colors.ts line 91). -/
def satSeed (id : String) : Nat :=
  parseIntHex (strSlice (md5hex id) 0 4) % 50 + 40

/-- The lightness seed: nibbles 8 to 12 of the digest, reduced mod 20 and
shifted by 30 (custom-colors.ts line 92; the Math.floor there is the
identity on this integer). -/
def lightSeed (id : String) : Nat :=
  parseIntHex (strSlice (md5hex id) 8 12) % 20 + 30

/-- The full hash-derived color of a normalized key: seeds from the MD5
digest, then the color pipeline (custom-colors.ts lines 89 to 113). -/
def hashDerived (id : String) : String :=
  colorFromSeeds (hueSeed id) (satSeed id) (lightSeed id)

/-! ## Module state and stateful operations -/

/-- Association-list lookup with JavaScript object semantics (at most one
entry per key in any reachable map). -/
def lookupKey : List (String × String) → String → Option String
  | [], _ => none
  | (k, v) :: rest, key => if k = key then some v else lookupKey rest key

/-- Insert or replace a key, as assignment on a JavaScript object. -/
def setKey : List (String × String) → String → String → List (String × String)
  | [], key, val => [(key, val)]
  | (k, v) :: rest, key, val =>
    if k = key then (key, val) :: rest else (k, v) :: setKey rest key val

/-- Remove a key, as delete on a JavaScript object. -/
def delKey : List (String × String) → String → List (String × String)
  | [], _ => []
  | (k, v) :: rest, key =>
    if k = key then delKey rest key else (k, v) :: delKey rest key

/-- A value a truthy property read on the plain string-to-string objects
of this module can produce: a stored string, or the constructor function
a plain object inherits from its prototype. -/
inductive JsValue where
  | str (s : String)
  | fn
deriving DecidableEq

/-- Truthy lookup: a JavaScript property read used in a condition.  An own
entry is found first, and an empty-string own value is falsy without any
further lookup.  When no own entry exists, ordinary property lookup
(ECMA-262) walks the prototype chain of the plain object: the key
constructor then yields the inherited, truthy constructor function.  That
is the only Object.prototype property name consisting solely of lowercase
alphanumeric characters, hence the only one reachable as a normalized id;
every other absent key is undefined and falsy. -/
def getTruthy (m : List (String × String)) (k : String) : Option JsValue :=
  match lookupKey m k with
  | some v => if v = "" then none else some (JsValue.str v)
  | none => if k = "constructor" then some JsValue.fn else none

/-- The module-level mutable state of custom-colors.ts: the customColors
override table (line 20) and the colorCache (line 21).  File persistence
(saveData / loadData) is input-output glue outside this embedding. -/
structure ColorState where
  customColors : List (String × String)
  colorCache : List (String × String)
deriving DecidableEq

/-- The state at module load with no persisted data: both maps empty. -/
def initialState : ColorState := ⟨[], []⟩

/-- clearColorCache (custom-colors.ts lines 41 to 43): delete every cache
key. -/
def clearColorCache (s : ColorState) : ColorState :=
  { s with colorCache := [] }

/-- addCustomColor (custom-colors.ts lines 52 to 56): set the override and
the cache entry for the key, then persist. -/
def addCustomColor (s : ColorState) (userid color : String) : ColorState :=
  { customColors := setKey s.customColors userid color,
    colorCache := setKey s.colorCache userid color }

/-- removeCustomColor (custom-colors.ts lines 58 to 62): delete the
override and the cache entry for the key, then persist. -/
def removeCustomColor (s : ColorState) (userid : String) : ColorState :=
  { customColors := delKey s.customColors userid,
    colorCache := delKey s.colorCache userid }

/-- validateHexColor (custom-colors.ts lines 64 to 65): the anchored
regular expression for 3- or 6-digit hex colors with a leading hash. -/
def validateHexColor (color : String) : Bool :=
  match color.data with
  | '#' :: rest => (rest.length = 3 || rest.length = 6) && rest.all isHexDigit
  | _ => false

/-- hashColor (custom-colors.ts lines 84 to 116): override first, then
cache, then the hash pipeline, caching the computed color.  Returns the
served value and the resulting state.  The truthy reads at lines 86 and
87 follow the prototype chain, so for the id constructor with no own
entry the inherited constructor function itself is returned and the hash
pipeline never runs. -/
def hashColor (s : ColorState) (name : String) : JsValue × ColorState :=
  let id := toID name
  match getTruthy s.customColors id with
  | some c => (c, s)
  | none =>
    match getTruthy s.colorCache id with
    | some c => (c, s)
    | none =>
      let color := hashDerived id
      (JsValue.str color, { s with colorCache := setKey s.colorCache id color })

/-! ## The chat commands (custom-colors.ts lines 208 to 309)

Permission checks, HTML replies, CSS-file splicing and notifications are
host-framework input-output; the embedded commands keep the control flow
that decides validation and the state mutation. -/

/-- Outcome of a command invocation. -/
inductive CmdOutcome where
  | help
  | error (msg : String)
  | ok
deriving DecidableEq

/-- Split on commas, as the JavaScript string split. -/
def splitCommaGo : List Char → List Char → List String
  | [], acc => [String.mk acc.reverse]
  | c :: rest, acc =>
    if c = ',' then String.mk acc.reverse :: splitCommaGo rest []
    else splitCommaGo rest (c :: acc)

/-- Split on commas, as the JavaScript string split. -/
def splitComma (s : String) : List String := splitCommaGo s.data []

/-- Whitespace in the sense of the JavaScript string trim, restricted to
the ASCII whitespace that can occur here. -/
def isSpaceChar (c : Char) : Bool :=
  c = ' ' || c = '\t' || c = '\n' || c = '\r'

/-- Embedding of the JavaScript string trim. -/
def jsTrim (s : String) : String :=
  String.mk (((s.data.dropWhile isSpaceChar).reverse.dropWhile isSpaceChar).reverse)

/-- The customcolor set command (custom-colors.ts lines 214 to 236):
split and trim the target, require both parts, bound the id length,
validate the hex syntax, and only then mutate via addCustomColor. -/
def ccSet (s : ColorState) (target : String) : CmdOutcome × ColorState :=
  let parts := (splitComma target).map jsTrim
  let name := parts.getD 0 ""
  let color := parts.getD 1 ""
  if name = "" || color = "" then (.help, s)
  else
    let targetId := toID name
    if targetId.length > 19 then (.error "Usernames are not this long...", s)
    else if !validateHexColor color then
      (.error "Invalid hex format. Use #RGB or #RRGGBB.", s)
    else (.ok, addCustomColor s targetId color)

/-- The customcolor delete command (custom-colors.ts lines 238 to 255):
require a target, require a truthy read of the override table (which the
inherited constructor also satisfies for the id constructor with no own
entry, the delete then removing no own key), then mutate via
removeCustomColor. -/
def ccDelete (s : ColorState) (target : String) : CmdOutcome × ColorState :=
  if target = "" then (.help, s)
  else
    let targetId := toID target
    match getTruthy s.customColors targetId with
    | none => (.error "does not have a custom color.", s)
    | some _ => (.ok, removeCustomColor s targetId)

/-! ## Operation sequences over the module state -/

/-- One observable operation on the module state. -/
inductive ColorOp where
  | look (name : String)
  | add (userid color : String)
  | remove (userid : String)
  | clearCache

/-- Apply one operation to the state. -/
def applyOp (s : ColorState) : ColorOp → ColorState
  | .look name => (hashColor s name).2
  | .add u c => addCustomColor s u c
  | .remove u => removeCustomColor s u
  | .clearCache => clearColorCache s

/-- Run a sequence of operations from the empty initial state. -/
def execOps (ops : List ColorOp) : ColorState :=
  ops.foldl applyOp initialState

/-- Cache coherence: every cached key with no override entry holds exactly
the hash-derived color of that key. -/
def Coherent (s : ColorState) : Prop :=
  ∀ k v, lookupKey s.colorCache k = some v →
    lookupKey s.customColors k = none → v = hashDerived k

/-- Well-formed regex match for a 7-character hex color, the property
stated by the spec as matching the anchored 6-hex-digit pattern: a leading
hash character followed by exactly six hex digits. -/
def matchesHex6 (s : String) : Bool :=
  match s.data with
  | c :: rest => c = '#' && rest.length = 6 && rest.all isHexDigit
  | [] => false

/-- The lightness correction exactly as the specification words it, for
the refinement comparison against codeCorrection: the raw delta, a rescale
step when delta exceeds 18, a dampen step when delta is negative, and the
hue-distance boost under 15 degrees from 180 or 240. -/
def specLightnessCorrection (H : Nat) (lum : ℚ) : ℚ :=
  let delta0 := (lum - 0.2) * (-150)
  let delta1 := if delta0 > 18 then (delta0 - 18) * 2.5 else delta0
  let delta2 := if delta1 < 0 then delta1 / 3 else delta1
  let dist := min (jsAbs (180 - (H : ℚ))) (jsAbs (240 - (H : ℚ)))
  if dist < 15 then delta2 + (15 - dist) / 3 else delta2

/-- Every entry of the override table satisfies the hex-syntax invariant. -/
def OverridesValid (s : ColorState) : Prop :=
  ∀ k v, lookupKey s.customColors k = some v → validateHexColor v = true

/-! ## Map lemmas -/

theorem lookupKey_setKey_self (m : List (String × String)) (k v : String) :
    lookupKey (setKey m k v) k = some v := by
  induction m with
  | nil => simp [setKey, lookupKey]
  | cons hd tl ih =>
    obtain ⟨k', v'⟩ := hd
    by_cases h : k' = k <;> simp [setKey, lookupKey, h, ih]

theorem lookupKey_setKey_ne (m : List (String × String)) (k v k' : String)
    (h : k' ≠ k) : lookupKey (setKey m k v) k' = lookupKey m k' := by
  have hkk : ¬k = k' := fun hh => h hh.symm
  induction m with
  | nil => simp [setKey, lookupKey, hkk]
  | cons hd tl ih =>
    obtain ⟨ka, va⟩ := hd
    by_cases hk : ka = k
    · subst hk
      simp [setKey, lookupKey, hkk]
    · simp [setKey, lookupKey, hk, ih]

theorem lookupKey_delKey_self (m : List (String × String)) (k : String) :
    lookupKey (delKey m k) k = none := by
  induction m with
  | nil => simp [delKey, lookupKey]
  | cons hd tl ih =>
    obtain ⟨k', v'⟩ := hd
    by_cases h : k' = k <;> simp [delKey, lookupKey, h, ih]

theorem lookupKey_delKey_ne (m : List (String × String)) (k k' : String)
    (h : k' ≠ k) : lookupKey (delKey m k) k' = lookupKey m k' := by
  have hkk : ¬k = k' := fun hh => h hh.symm
  induction m with
  | nil => simp [delKey, lookupKey]
  | cons hd tl ih =>
    obtain ⟨ka, va⟩ := hd
    by_cases hk : ka = k
    · subst hk
      simp [delKey, lookupKey, hkk, ih]
    · simp [delKey, lookupKey, hk, ih]

theorem getTruthy_eq_some (m : List (String × String)) (k v : String)
    (h : getTruthy m k = some (JsValue.str v)) :
    lookupKey m k = some v ∧ v ≠ "" := by
  unfold getTruthy at h
  cases hl : lookupKey m k with
  | none =>
    simp only [hl] at h
    split_ifs at h <;> simp at h
  | some w =>
    simp only [hl] at h
    by_cases hw : w = ""
    · simp [hw] at h
    · simp only [if_neg hw, Option.some.injEq, JsValue.str.injEq] at h
      exact ⟨congrArg some h, fun he => hw (by rw [h]; exact he)⟩

theorem getTruthy_of_lookup (m : List (String × String)) (k v : String)
    (h : lookupKey m k = some v) (hv : v ≠ "") :
    getTruthy m k = some (JsValue.str v) := by
  unfold getTruthy
  simp only [h, if_neg hv]

theorem getTruthy_none_of_lookup_none (m : List (String × String)) (k : String)
    (h : lookupKey m k = none) (hctor : k ≠ "constructor") :
    getTruthy m k = none := by
  unfold getTruthy
  simp only [h, if_neg hctor]

theorem getTruthy_ctor_of_lookup_none (m : List (String × String))
    (h : lookupKey m "constructor" = none) :
    getTruthy m "constructor" = some JsValue.fn := by
  simp [getTruthy, h]

theorem getTruthy_fn_imp_ctor (m : List (String × String)) (k : String)
    (h : getTruthy m k = some JsValue.fn) : k = "constructor" := by
  unfold getTruthy at h
  cases hl : lookupKey m k with
  | none =>
    simp only [hl] at h
    by_cases hk : k = "constructor"
    · exact hk
    · simp [hk] at h
  | some w =>
    simp only [hl] at h
    split_ifs at h <;> simp at h

/-! ## Characterization of hashColor -/

theorem validateHexColor_ne_empty (c : String) (h : validateHexColor c = true) :
    c ≠ "" := by
  intro he
  subst he
  simp [validateHexColor] at h

theorem hashColor_of_override (s : ColorState) (name : String) (c : JsValue)
    (h : getTruthy s.customColors (toID name) = some c) :
    hashColor s name = (c, s) := by
  simp only [hashColor, h]

theorem hashColor_of_no_override_cached (s : ColorState) (name : String)
    (c : JsValue)
    (h : getTruthy s.customColors (toID name) = none)
    (hc : getTruthy s.colorCache (toID name) = some c) :
    hashColor s name = (c, s) := by
  simp only [hashColor, h, hc]

theorem hashColor_of_no_override_uncached (s : ColorState) (name : String)
    (h : getTruthy s.customColors (toID name) = none)
    (hc : getTruthy s.colorCache (toID name) = none) :
    hashColor s name =
      (JsValue.str (hashDerived (toID name)),
       { s with colorCache :=
          setKey s.colorCache (toID name) (hashDerived (toID name)) }) := by
  simp only [hashColor, h, hc]

theorem hash_mark_data : ("#" : String).data = ['#'] := rfl

theorem hash_prepend_ne_empty (a b c : String) : "#" ++ a ++ b ++ c ≠ "" := by
  intro h
  have hd := congrArg String.data h
  simp only [String.data_append, hash_mark_data] at hd
  exact absurd hd (by simp)

theorem hashDerived_ne_empty (id : String) : hashDerived id ≠ "" := by
  unfold hashDerived colorFromSeeds
  exact hash_prepend_ne_empty _ _ _

/-- The color served when the key has no override entry and is not the
prototype-colliding id constructor, from any coherent state: always the
hash-derived color. -/
theorem hashColor_result_no_override (s : ColorState) (name : String)
    (hcoh : Coherent s)
    (hno : lookupKey s.customColors (toID name) = none)
    (hctor : toID name ≠ "constructor") :
    (hashColor s name).1 = JsValue.str (hashDerived (toID name)) := by
  have hno' := getTruthy_none_of_lookup_none _ _ hno hctor
  cases hc : getTruthy s.colorCache (toID name) with
  | none => rw [hashColor_of_no_override_uncached s name hno' hc]
  | some v =>
    cases v with
    | str w =>
      rw [hashColor_of_no_override_cached s name _ hno' hc]
      obtain ⟨hl, _⟩ := getTruthy_eq_some _ _ _ hc
      exact congrArg JsValue.str (hcoh _ _ hl hno)
    | fn => exact absurd (getTruthy_fn_imp_ctor _ _ hc) hctor

theorem hashColor_customColors_unchanged (s : ColorState) (name : String) :
    (hashColor s name).2.customColors = s.customColors := by
  cases ho : getTruthy s.customColors (toID name) with
  | some c => rw [hashColor_of_override s name c ho]
  | none =>
    cases hc : getTruthy s.colorCache (toID name) with
    | some c => rw [hashColor_of_no_override_cached s name c ho hc]
    | none => rw [hashColor_of_no_override_uncached s name ho hc]

/-! ## Coherence preservation -/

theorem initialState_coherent : Coherent initialState := by
  intro k v h
  simp [initialState, lookupKey] at h

theorem clearColorCache_coherent (s : ColorState) :
    Coherent (clearColorCache s) := by
  intro k v h
  simp [clearColorCache, lookupKey] at h

theorem addCustomColor_coherent (s : ColorState) (u c : String)
    (hcoh : Coherent s) : Coherent (addCustomColor s u c) := by
  intro k v hcache hover
  by_cases hk : k = u
  · subst hk
    rw [show (addCustomColor s k c).customColors = setKey s.customColors k c
        from rfl] at hover
    rw [lookupKey_setKey_self] at hover
    exact absurd hover (by simp)
  · rw [show (addCustomColor s u c).colorCache = setKey s.colorCache u c
        from rfl] at hcache
    rw [show (addCustomColor s u c).customColors = setKey s.customColors u c
        from rfl] at hover
    rw [lookupKey_setKey_ne _ _ _ _ hk] at hcache
    rw [lookupKey_setKey_ne _ _ _ _ hk] at hover
    exact hcoh _ _ hcache hover

theorem removeCustomColor_coherent (s : ColorState) (u : String)
    (hcoh : Coherent s) : Coherent (removeCustomColor s u) := by
  intro k v hcache hover
  by_cases hk : k = u
  · subst hk
    rw [show (removeCustomColor s k).colorCache = delKey s.colorCache k
        from rfl] at hcache
    rw [lookupKey_delKey_self] at hcache
    exact absurd hcache (by simp)
  · rw [show (removeCustomColor s u).colorCache = delKey s.colorCache u
        from rfl] at hcache
    rw [show (removeCustomColor s u).customColors = delKey s.customColors u
        from rfl] at hover
    rw [lookupKey_delKey_ne _ _ _ hk] at hcache
    rw [lookupKey_delKey_ne _ _ _ hk] at hover
    exact hcoh _ _ hcache hover

theorem hashColor_coherent (s : ColorState) (name : String)
    (hcoh : Coherent s) : Coherent (hashColor s name).2 := by
  cases ho : getTruthy s.customColors (toID name) with
  | some c => rw [hashColor_of_override s name c ho]; exact hcoh
  | none =>
    cases hc : getTruthy s.colorCache (toID name) with
    | some c => rw [hashColor_of_no_override_cached s name c ho hc]; exact hcoh
    | none =>
      rw [hashColor_of_no_override_uncached s name ho hc]
      intro k v hcache hover
      by_cases hk : k = toID name
      · subst hk
        rw [lookupKey_setKey_self] at hcache
        injection hcache with h
        exact h.symm
      · rw [lookupKey_setKey_ne _ _ _ _ hk] at hcache
        exact hcoh _ _ hcache hover

theorem applyOp_coherent (s : ColorState) (op : ColorOp)
    (hcoh : Coherent s) : Coherent (applyOp s op) := by
  cases op with
  | look name => exact hashColor_coherent s name hcoh
  | add u c => exact addCustomColor_coherent s u c hcoh
  | remove u => exact removeCustomColor_coherent s u hcoh
  | clearCache => exact clearColorCache_coherent s

theorem foldl_applyOp_coherent (ops : List ColorOp) :
    ∀ s : ColorState, Coherent s → Coherent (ops.foldl applyOp s) := by
  induction ops with
  | nil => intro s h; exact h
  | cons op rest ih =>
    intro s h
    exact ih (applyOp s op) (applyOp_coherent s op h)

theorem execOps_coherent (ops : List ColorOp) : Coherent (execOps ops) :=
  foldl_applyOp_coherent ops initialState initialState_coherent

/-! ## Range analysis of the color pipeline -/

theorem jsAbs_nonneg (q : ℚ) : 0 ≤ jsAbs q := by
  unfold jsAbs; split_ifs with h <;> linarith

theorem le_jsAbs (q : ℚ) : q ≤ jsAbs q := by
  unfold jsAbs; split_ifs with h <;> linarith

theorem neg_le_jsAbs (q : ℚ) : -q ≤ jsAbs q := by
  unfold jsAbs; split_ifs with h <;> linarith

theorem jsAbs_le (q b : ℚ) (h1 : -b ≤ q) (h2 : q ≤ b) : jsAbs q ≤ b := by
  unfold jsAbs; split_ifs with h <;> linarith

theorem jsFmod_two_bounds (a : ℚ) (ha : 0 ≤ a) :
    0 ≤ jsFmod a 2 ∧ jsFmod a 2 < 2 := by
  unfold jsFmod ratTrunc
  have h2 : (0 : ℚ) ≤ a / 2 := by positivity
  rw [if_pos h2]
  have hfl := Int.floor_le (a / 2)
  have hfu := Int.lt_floor_add_one (a / 2)
  constructor <;> push_cast <;> linarith

theorem chroma_nonneg (S L : ℚ) (hS : 0 ≤ S) (hL0 : 0 ≤ L) (hL1 : L ≤ 100) :
    0 ≤ chromaOf S L := by
  unfold chromaOf
  have h1 : jsAbs (2 * L - 100) ≤ 100 :=
    jsAbs_le _ _ (by linarith) (by linarith)
  have h2 : (0 : ℚ) ≤ (100 - jsAbs (2 * L - 100)) * S :=
    mul_nonneg (by linarith) hS
  linarith

theorem chroma_le_LS (S L : ℚ) (hS0 : 0 ≤ S) :
    chromaOf S L ≤ 2 * L * S / 10000 := by
  unfold chromaOf
  have h1 : 100 - jsAbs (2 * L - 100) ≤ 2 * L := by
    have := neg_le_jsAbs (2 * L - 100); linarith
  have h2 : (100 - jsAbs (2 * L - 100)) * S ≤ 2 * L * S :=
    mul_le_mul_of_nonneg_right h1 hS0
  linarith

theorem chroma_le_flip (S L : ℚ) (hS0 : 0 ≤ S) (hS1 : S ≤ 100) (hL1 : L ≤ 100) :
    chromaOf S L ≤ (200 - 2 * L) / 100 := by
  unfold chromaOf
  have h1 : 100 - jsAbs (2 * L - 100) ≤ 200 - 2 * L := by
    have := le_jsAbs (2 * L - 100); linarith
  have h2 : (100 - jsAbs (2 * L - 100)) * S ≤ (200 - 2 * L) * S :=
    mul_le_mul_of_nonneg_right h1 hS0
  have h3 : (200 - 2 * L) * S ≤ (200 - 2 * L) * 100 :=
    mul_le_mul_of_nonneg_left hS1 (by linarith)
  linarith

theorem mOf_nonneg (S L : ℚ) (hS0 : 0 ≤ S) (hS1 : S ≤ 100) (hL0 : 0 ≤ L) :
    0 ≤ mOf S L := by
  unfold mOf
  have h1 := chroma_le_LS S L hS0
  have h2 : (0 : ℚ) ≤ L * (100 - S) := mul_nonneg hL0 (by linarith)
  linarith

theorem m_add_chroma_le_one (S L : ℚ) (hS0 : 0 ≤ S) (hS1 : S ≤ 100)
    (hL1 : L ≤ 100) : chromaOf S L + mOf S L ≤ 1 := by
  unfold mOf
  have := chroma_le_flip S L hS0 hS1 hL1
  linarith

theorem xOf_bounds (H S L : ℚ) (hH : 0 ≤ H) (hC : 0 ≤ chromaOf S L) :
    0 ≤ xOf H S L ∧ xOf H S L ≤ chromaOf S L := by
  unfold xOf
  obtain ⟨hf0, hf2⟩ := jsFmod_two_bounds (H / 60) (by positivity)
  have habs : jsAbs (jsFmod (H / 60) 2 - 1) ≤ 1 :=
    jsAbs_le _ _ (by linarith) (by linarith)
  have h0 : 0 ≤ 1 - jsAbs (jsFmod (H / 60) 2 - 1) := by linarith
  have h1 : 1 - jsAbs (jsFmod (H / 60) 2 - 1) ≤ 1 := by
    have := jsAbs_nonneg (jsFmod (H / 60) 2 - 1); linarith
  refine ⟨mul_nonneg hC h0, ?_⟩
  have := mul_le_mul_of_nonneg_left h1 hC
  linarith

theorem HSLToRGB_bounds (H S L : ℚ) (hH : 0 ≤ H) (hS0 : 0 ≤ S) (hS1 : S ≤ 100)
    (hL0 : 0 ≤ L) (hL1 : L ≤ 100) :
    (0 ≤ (HSLToRGB H S L).R ∧ (HSLToRGB H S L).R ≤ 1) ∧
    (0 ≤ (HSLToRGB H S L).G ∧ (HSLToRGB H S L).G ≤ 1) ∧
    (0 ≤ (HSLToRGB H S L).B ∧ (HSLToRGB H S L).B ≤ 1) := by
  have hC := chroma_nonneg S L hS0 hL0 hL1
  obtain ⟨hX0, hXC⟩ := xOf_bounds H S L hH hC
  have hm := mOf_nonneg S L hS0 hS1 hL0
  have hCm := m_add_chroma_le_one S L hS0 hS1 hL1
  simp only [HSLToRGB]
  split_ifs <;>
    exact ⟨⟨by dsimp only; linarith, by dsimp only; linarith⟩,
           ⟨by dsimp only; linarith, by dsimp only; linarith⟩,
           ⟨by dsimp only; linarith, by dsimp only; linarith⟩⟩

theorem HSLToRGB_le_peak (H S L : ℚ) (hH : 0 ≤ H) (hS0 : 0 ≤ S) (hS1 : S ≤ 100)
    (hL0 : 0 ≤ L) (hL1 : L ≤ 100) :
    (HSLToRGB H S L).R ≤ L / 100 + L * S / 10000 ∧
    (HSLToRGB H S L).G ≤ L / 100 + L * S / 10000 ∧
    (HSLToRGB H S L).B ≤ L / 100 + L * S / 10000 := by
  have hC := chroma_nonneg S L hS0 hL0 hL1
  obtain ⟨hX0, hXC⟩ := xOf_bounds H S L hH hC
  have hCLS := chroma_le_LS S L hS0
  have hpeak : chromaOf S L + mOf S L ≤ L / 100 + L * S / 10000 := by
    unfold mOf; linarith
  simp only [HSLToRGB]
  split_ifs <;>
    exact ⟨by dsimp only; linarith, by dsimp only; linarith,
           by dsimp only; linarith⟩

theorem lumOf_bounds (c : RGB) (M : ℚ) (hR0 : 0 ≤ c.R) (hR1 : c.R ≤ M)
    (hG0 : 0 ≤ c.G) (hG1 : c.G ≤ M) (hB0 : 0 ≤ c.B) (hB1 : c.B ≤ M) :
    0 ≤ lumOf c ∧ lumOf c ≤ M * M * M := by
  unfold lumOf
  have hM0 : 0 ≤ M := le_trans hR0 hR1
  have cube : ∀ x : ℚ, 0 ≤ x → x ≤ M → x * x * x ≤ M * M * M := by
    intro x h0 h1
    have h2 : x * x ≤ M * M := mul_le_mul h1 h1 h0 hM0
    exact mul_le_mul h2 h1 h0 (mul_nonneg hM0 hM0)
  have r3 := cube c.R hR0 hR1
  have g3 := cube c.G hG0 hG1
  have b3 := cube c.B hB0 hB1
  have r0 : 0 ≤ c.R * c.R * c.R := mul_nonneg (mul_nonneg hR0 hR0) hR0
  have g0 : 0 ≤ c.G * c.G * c.G := mul_nonneg (mul_nonneg hG0 hG0) hG0
  have b0 : 0 ≤ c.B * c.B * c.B := mul_nonneg (mul_nonneg hB0 hB0) hB0
  constructor <;> nlinarith

/-- The luminance peak: the cube of the largest channel value reachable on
the first conversion with S below 90 and L below 50. -/
theorem peak_cube :
    (9261 : ℚ) / 10000 * (9261 / 10000) * (9261 / 10000) =
      794280046581 / 10 ^ 12 := by norm_num

theorem codeCorrection_bounds (H : Nat) (lum : ℚ) (h0 : 0 ≤ lum)
    (h1 : lum ≤ 794280046581 / 10 ^ 12) :
    -(2972 / 100) ≤ codeCorrection H lum ∧ codeCorrection H lum ≤ 35 := by
  have hd0 : 0 ≤ min (jsAbs (180 - (H : ℚ))) (jsAbs (240 - (H : ℚ))) :=
    le_min (jsAbs_nonneg _) (jsAbs_nonneg _)
  simp only [codeCorrection]
  split_ifs with hA hB hC hD hE <;> constructor <;> linarith

/-! ## Hex formatting yields exactly two hex digits per channel -/

set_option maxRecDepth 100000 in
theorem toHexPad_two_hex : ∀ n : Nat, n < 256 →
    (toHexPad ((n : Nat) : ℤ)).data.length = 2 ∧
    (toHexPad ((n : Nat) : ℤ)).data.all isHexDigit = true := by decide

theorem toHex_hexpair (x : ℚ) (h0 : 0 ≤ x) (h1 : x ≤ 1) :
    (toHex x).data.length = 2 ∧ (toHex x).data.all isHexDigit = true := by
  unfold toHex
  have hx0 : (0 : ℚ) ≤ x * 255 := mul_nonneg h0 (by norm_num)
  have hr0 : 0 ≤ jsRound (x * 255) := by
    unfold jsRound
    exact Int.floor_nonneg.mpr (by linarith)
  have hr1 : jsRound (x * 255) < 256 := by
    unfold jsRound
    refine Int.floor_lt.mpr ?_
    push_cast
    linarith
  obtain ⟨n, hn⟩ : ∃ n : Nat, jsRound (x * 255) = ((n : Nat) : ℤ) :=
    ⟨(jsRound (x * 255)).toNat, (Int.toNat_of_nonneg hr0).symm⟩
  rw [hn]
  have hn' : n < 256 := by
    rw [hn] at hr1
    exact_mod_cast hr1
  exact toHexPad_two_hex n hn'

/-! ## Seed ranges -/

theorem hueSeed_lt (id : String) : hueSeed id < 360 :=
  Nat.mod_lt _ (by norm_num)

theorem satSeed_range (id : String) : 40 ≤ satSeed id ∧ satSeed id < 90 := by
  unfold satSeed
  have := Nat.mod_lt (parseIntHex (strSlice (md5hex id) 0 4))
    (show 0 < 50 by norm_num)
  omega

theorem lightSeed_range (id : String) : 30 ≤ lightSeed id ∧ lightSeed id < 50 := by
  unfold lightSeed
  have := Nat.mod_lt (parseIntHex (strSlice (md5hex id) 8 12))
    (show 0 < 20 by norm_num)
  omega

/-! ## The hash-derived color is always a well-formed hex string -/

theorem colorFromSeeds_wellformed (H S L0 : Nat) (hS0 : 40 ≤ S) (hS1 : S < 90)
    (hL0 : 30 ≤ L0) (hL1 : L0 < 50) :
    matchesHex6 (colorFromSeeds H S L0) = true := by
  have hHq : (0 : ℚ) ≤ (H : ℚ) := Nat.cast_nonneg H
  have hSq0 : (40 : ℚ) ≤ (S : ℚ) := by exact_mod_cast hS0
  have hSq1 : (S : ℚ) ≤ 89 := by exact_mod_cast (show S ≤ 89 by omega)
  have hLq0 : (30 : ℚ) ≤ (L0 : ℚ) := by exact_mod_cast hL0
  have hLq1 : (L0 : ℚ) ≤ 49 := by exact_mod_cast (show L0 ≤ 49 by omega)
  obtain ⟨⟨r0, r1⟩, ⟨g0, g1⟩, ⟨b0, b1⟩⟩ :=
    HSLToRGB_bounds (H : ℚ) (S : ℚ) (L0 : ℚ) hHq (by linarith) (by linarith)
      (by linarith) (by linarith)
  obtain ⟨rp, gp, bp⟩ :=
    HSLToRGB_le_peak (H : ℚ) (S : ℚ) (L0 : ℚ) hHq (by linarith) (by linarith)
      (by linarith) (by linarith)
  have hpeak : (L0 : ℚ) / 100 + (L0 : ℚ) * (S : ℚ) / 10000 ≤ 9261 / 10000 := by
    nlinarith
  obtain ⟨hlum0, hlum1⟩ :=
    lumOf_bounds (HSLToRGB (H : ℚ) (S : ℚ) (L0 : ℚ)) (9261 / 10000)
      r0 (by linarith) g0 (by linarith) b0 (by linarith)
  have hlum2 : lumOf (HSLToRGB (H : ℚ) (S : ℚ) (L0 : ℚ)) ≤
      794280046581 / 10 ^ 12 := by
    rw [← peak_cube]; exact hlum1
  obtain ⟨hc0, hc1⟩ :=
    codeCorrection_bounds H (lumOf (HSLToRGB (H : ℚ) (S : ℚ) (L0 : ℚ)))
      hlum0 hlum2
  obtain ⟨⟨R0, R1⟩, ⟨G0, G1⟩, ⟨B0, B1⟩⟩ :=
    HSLToRGB_bounds (H : ℚ) (S : ℚ)
      ((L0 : ℚ) + codeCorrection H (lumOf (HSLToRGB (H : ℚ) (S : ℚ) (L0 : ℚ))))
      hHq (by linarith) (by linarith) (by linarith) (by linarith)
  obtain ⟨lr, ar⟩ := toHex_hexpair _ R0 R1
  obtain ⟨lg, ag⟩ := toHex_hexpair _ G0 G1
  obtain ⟨lb, ab⟩ := toHex_hexpair _ B0 B1
  simp only [colorFromSeeds, matchesHex6, String.data_append, hash_mark_data,
    List.cons_append, List.nil_append, List.length_append, List.all_append,
    lr, lg, lb, ar, ag, ab]
  decide

theorem matchesHex6_hashDerived (id : String) :
    matchesHex6 (hashDerived id) = true := by
  unfold hashDerived
  exact colorFromSeeds_wellformed _ _ _ (satSeed_range id).1 (satSeed_range id).2
    (lightSeed_range id).1 (lightSeed_range id).2

/-! ## Override-table validity preservation -/

theorem addCustomColor_valid (s : ColorState) (u c : String)
    (h : OverridesValid s) (hv : validateHexColor c = true) :
    OverridesValid (addCustomColor s u c) := by
  intro k v hl
  by_cases hk : k = u
  · subst hk
    rw [show (addCustomColor s k c).customColors = setKey s.customColors k c
        from rfl, lookupKey_setKey_self] at hl
    injection hl with hl
    rw [← hl]
    exact hv
  · rw [show (addCustomColor s u c).customColors = setKey s.customColors u c
        from rfl, lookupKey_setKey_ne _ _ _ _ hk] at hl
    exact h _ _ hl

theorem removeCustomColor_valid (s : ColorState) (u : String)
    (h : OverridesValid s) : OverridesValid (removeCustomColor s u) := by
  intro k v hl
  by_cases hk : k = u
  · subst hk
    rw [show (removeCustomColor s k).customColors = delKey s.customColors k
        from rfl, lookupKey_delKey_self] at hl
    exact absurd hl (by simp)
  · rw [show (removeCustomColor s u).customColors = delKey s.customColors u
        from rfl, lookupKey_delKey_ne _ _ _ hk] at hl
    exact h _ _ hl

theorem ccSet_valid (s : ColorState) (target : String)
    (h : OverridesValid s) : OverridesValid (ccSet s target).2 := by
  simp only [ccSet]
  split_ifs with h1 h2 h3
  · exact h
  · exact h
  · exact h
  · refine addCustomColor_valid s _ _ h ?_
    simpa using h3

theorem ccDelete_valid (s : ColorState) (target : String)
    (h : OverridesValid s) : OverridesValid (ccDelete s target).2 := by
  simp only [ccDelete]
  split_ifs with h1
  · exact h
  · cases hg : getTruthy s.customColors (toID target) with
    | none => simpa [hg] using h
    | some c =>
      simp only [hg]
      exact removeCustomColor_valid s _ h

/-! ## Claim theorems -/

set_option maxRecDepth 100000 in
/-- C1 counterexample: the claim as stated ranges over every string
identifier, and fails twice: an identifier whose override was set to a
valid 3-digit form through the set command is served that 4-character
override verbatim, which does not match the anchored 6-hex-digit pattern;
and the identifier constructor with no override at all is served the
constructor function inherited through the prototype chain, which is not
a string. -/
theorem c1_counterexample :
    (ccSet initialState "ash, #F00").1 = CmdOutcome.ok ∧
    (hashColor (ccSet initialState "ash, #F00").2 "ash").1 =
      JsValue.str "#F00" ∧
    matchesHex6 "#F00" = false ∧
    lookupKey initialState.customColors (toID "constructor") = none ∧
    (hashColor initialState "constructor").1 = JsValue.fn := by decide

/-- C1 (amended): for every identifier whose normalized key has no
override entry and is not the prototype-colliding string constructor,
hashColor returns a string matching the anchored pattern of a hash sign
followed by exactly six hex digits; in particular every rounded RGB
channel produced after the lightness correction lies in 0 to 255 so toHex
always yields exactly two hex digits per channel. -/
theorem c1_wellformed_no_override (s : ColorState) (name : String)
    (hcoh : Coherent s)
    (hno : lookupKey s.customColors (toID name) = none)
    (hctor : toID name ≠ "constructor") :
    (hashColor s name).1 = JsValue.str (hashDerived (toID name)) ∧
    matchesHex6 (hashDerived (toID name)) = true :=
  ⟨hashColor_result_no_override s name hcoh hno hctor,
   matchesHex6_hashDerived _⟩

/-- C1 witness: the amended theorem applied at the empty initial state and
the identifier ash. -/
theorem c1_wellformed_no_override_witness :
    lookupKey initialState.customColors (toID "ash") = none ∧
    toID "ash" ≠ "constructor" ∧
    matchesHex6 (hashDerived (toID "ash")) = true :=
  ⟨rfl, by decide,
   (c1_wellformed_no_override initialState "ash" initialState_coherent rfl
     (by decide)).2⟩

/-- C2 counterexample: addCustomColor does not clear the whole cache: a
cache entry for an unrelated key survives an override mutation. -/
theorem c2_counterexample :
    (addCustomColor (ColorState.mk [] [("bob", "#123456")])
      "alice" "#FF0000").colorCache ≠ [] := by decide

/-- C2 (amended): override mutations invalidate per key, not in full:
addCustomColor overwrites the cache entry of the mutated key with the new
override value and removeCustomColor deletes that cache entry, while every
other cache key is left untouched, so no stale hashed color remains cached
for the mutated identifier. -/
theorem c2_per_key_invalidation (s : ColorState) (u c : String) :
    lookupKey (addCustomColor s u c).colorCache u = some c ∧
    lookupKey (addCustomColor s u c).customColors u = some c ∧
    lookupKey (removeCustomColor s u).colorCache u = none ∧
    lookupKey (removeCustomColor s u).customColors u = none ∧
    (∀ k, k ≠ u →
      lookupKey (addCustomColor s u c).colorCache k = lookupKey s.colorCache k) ∧
    (∀ k, k ≠ u →
      lookupKey (removeCustomColor s u).colorCache k = lookupKey s.colorCache k) :=
  ⟨lookupKey_setKey_self _ _ _, lookupKey_setKey_self _ _ _,
   lookupKey_delKey_self _ _, lookupKey_delKey_self _ _,
   fun k hk => lookupKey_setKey_ne _ _ _ _ hk,
   fun k hk => lookupKey_delKey_ne _ _ _ hk⟩

/-- C2 witness: the amended theorem applied at a concrete state with one
cached unrelated key. -/
theorem c2_per_key_invalidation_witness :
    ("bob" : String) ≠ "alice" ∧
    lookupKey (addCustomColor (ColorState.mk [] [("bob", "#123456")])
      "alice" "#FF0000").colorCache "bob" =
      lookupKey (ColorState.mk [] [("bob", "#123456")]).colorCache "bob" :=
  ⟨by decide,
   (c2_per_key_invalidation (ColorState.mk [] [("bob", "#123456")])
      "alice" "#FF0000").2.2.2.2.1 "bob" (by decide)⟩

/-- C3: when the normalized key has a valid override entry, hashColor
returns exactly that entry and leaves the state untouched: no cache
consultation, no cache write, no hash computation. -/
theorem c3_override_priority (s : ColorState) (name c : String)
    (hov : lookupKey s.customColors (toID name) = some c)
    (hval : validateHexColor c = true) :
    hashColor s name = (JsValue.str c, s) :=
  hashColor_of_override s name (JsValue.str c)
    (getTruthy_of_lookup _ _ _ hov (validateHexColor_ne_empty c hval))

/-- C3 witness: the theorem applied at a state whose cache holds a
conflicting value for the same key, showing the override wins. -/
theorem c3_override_priority_witness :
    lookupKey (ColorState.mk [("ash", "#FF0000")]
      [("ash", "#00FF00")]).customColors (toID "ash") = some "#FF0000" ∧
    validateHexColor "#FF0000" = true ∧
    hashColor (ColorState.mk [("ash", "#FF0000")] [("ash", "#00FF00")]) "ash" =
      (JsValue.str "#FF0000",
       ColorState.mk [("ash", "#FF0000")] [("ash", "#00FF00")]) :=
  ⟨by decide, by decide,
   c3_override_priority (ColorState.mk [("ash", "#FF0000")] [("ash", "#00FF00")])
     "ash" "#FF0000" (by decide) (by decide)⟩

set_option maxRecDepth 100000 in
/-- C4 counterexample: at the identifier constructor with no override
entry, the program serves the constructor function inherited through the
prototype chain and never recomputes from the MD5 hash: the served value
differs from the hash-derived color of that key. -/
theorem c4_counterexample :
    lookupKey initialState.customColors (toID "constructor") = none ∧
    (hashColor initialState "constructor").1 = JsValue.fn ∧
    (hashColor initialState "constructor").1 ≠
      JsValue.str (hashDerived (toID "constructor")) := by decide

/-- C4 (amended): for an identifier whose normalized key has no override
entry and is not the prototype-colliding string constructor, the served
color is the hash-derived color, a second call returns the same string,
and clearing the cache between calls does not change the result. -/
theorem c4_deterministic (s : ColorState) (name : String)
    (hcoh : Coherent s)
    (hno : lookupKey s.customColors (toID name) = none)
    (hctor : toID name ≠ "constructor") :
    (hashColor s name).1 = JsValue.str (hashDerived (toID name)) ∧
    (hashColor (hashColor s name).2 name).1 = (hashColor s name).1 ∧
    (hashColor (clearColorCache (hashColor s name).2) name).1 =
      (hashColor s name).1 := by
  have h1 := hashColor_result_no_override s name hcoh hno hctor
  have hcoh2 := hashColor_coherent s name hcoh
  have hno2 : lookupKey (hashColor s name).2.customColors (toID name) = none := by
    rw [hashColor_customColors_unchanged]; exact hno
  have h2 := hashColor_result_no_override _ name hcoh2 hno2 hctor
  have hcoh3 := clearColorCache_coherent (hashColor s name).2
  have hno3 : lookupKey (clearColorCache
      (hashColor s name).2).customColors (toID name) = none := hno2
  have h3 := hashColor_result_no_override _ name hcoh3 hno3 hctor
  exact ⟨h1, h2.trans h1.symm, h3.trans h1.symm⟩

/-- C4 witness: the amended theorem applied at the empty initial state and
the identifier ash. -/
theorem c4_deterministic_witness :
    lookupKey initialState.customColors (toID "ash") = none ∧
    toID "ash" ≠ "constructor" ∧
    (hashColor initialState "ash").1 = JsValue.str (hashDerived (toID "ash")) :=
  ⟨rfl, by decide,
   (c4_deterministic initialState "ash" initialState_coherent rfl (by decide)).1⟩

/-- C5: the hue, saturation and lightness seeds come from the consecutive
4-nibble windows of the MD5 hex digest at nibbles 4 to 8, 0 to 4 and 8 to
12 respectively, with the hue in 0 to 359, the saturation in 40 to 89 and
the lightness in 30 to 49. -/
theorem c5_seed_windows (id : String) :
    hashDerived id = colorFromSeeds (hueSeed id) (satSeed id) (lightSeed id) ∧
    hueSeed id = parseIntHex (strSlice (md5hex id) 4 8) % 360 ∧
    satSeed id = parseIntHex (strSlice (md5hex id) 0 4) % 50 + 40 ∧
    lightSeed id = parseIntHex (strSlice (md5hex id) 8 12) % 20 + 30 ∧
    hueSeed id < 360 ∧
    (40 ≤ satSeed id ∧ satSeed id < 90) ∧
    (30 ≤ lightSeed id ∧ lightSeed id < 50) :=
  ⟨rfl, rfl, rfl, rfl, hueSeed_lt id, satSeed_range id, lightSeed_range id⟩

/-- C6: the lightness correction of the code coincides with the correction
exactly as the spec words it, and the pipeline feeds the corrected
lightness through the same HSL-to-RGB conversion. -/
theorem c6_correction_refines :
    (∀ (H : Nat) (lum : ℚ),
      codeCorrection H lum = specLightnessCorrection H lum) ∧
    ∀ (H S L0 : Nat), colorFromSeeds H S L0 =
      "#" ++ toHex (HSLToRGB (H : ℚ) (S : ℚ) ((L0 : ℚ) +
          specLightnessCorrection H
            (lumOf (HSLToRGB (H : ℚ) (S : ℚ) (L0 : ℚ))))).R
        ++ toHex (HSLToRGB (H : ℚ) (S : ℚ) ((L0 : ℚ) +
          specLightnessCorrection H
            (lumOf (HSLToRGB (H : ℚ) (S : ℚ) (L0 : ℚ))))).G
        ++ toHex (HSLToRGB (H : ℚ) (S : ℚ) ((L0 : ℚ) +
          specLightnessCorrection H
            (lumOf (HSLToRGB (H : ℚ) (S : ℚ) (L0 : ℚ))))).B := by
  have hcs : ∀ (H : Nat) (lum : ℚ),
      codeCorrection H lum = specLightnessCorrection H lum := by
    intro H lum
    simp only [codeCorrection, specLightnessCorrection]
    split_ifs <;> linarith
  refine ⟨hcs, ?_⟩
  intro H S L0
  simp only [colorFromSeeds]
  rw [hcs]

/-- C7: setting an override and then removing it is a round trip: with the
override present the lookup returns the override value, and after removal
the lookup returns the same hash-derived value it returned before the
override was ever set. -/
theorem c7_override_roundtrip (s : ColorState) (name c : String)
    (hcoh : Coherent s)
    (hno : lookupKey s.customColors (toID name) = none)
    (hval : validateHexColor c = true) :
    (hashColor (addCustomColor s (toID name) c) name).1 = JsValue.str c ∧
    (hashColor (removeCustomColor (addCustomColor s (toID name) c)
      (toID name)) name).1 = (hashColor s name).1 := by
  constructor
  · have hov : lookupKey (addCustomColor s (toID name) c).customColors
        (toID name) = some c := lookupKey_setKey_self _ _ _
    rw [hashColor_of_override _ name (JsValue.str c)
      (getTruthy_of_lookup _ _ _ hov (validateHexColor_ne_empty c hval))]
  · have hcoh2 : Coherent (removeCustomColor (addCustomColor s (toID name) c)
        (toID name)) :=
      removeCustomColor_coherent _ _ (addCustomColor_coherent _ _ _ hcoh)
    have hno2 : lookupKey (removeCustomColor (addCustomColor s (toID name) c)
        (toID name)).customColors (toID name) = none := lookupKey_delKey_self _ _
    by_cases hctor : toID name = "constructor"
    · have g1 : getTruthy (removeCustomColor (addCustomColor s (toID name) c)
          (toID name)).customColors (toID name) = some JsValue.fn := by
        rw [hctor] at hno2 ⊢
        exact getTruthy_ctor_of_lookup_none _ hno2
      have g2 : getTruthy s.customColors (toID name) = some JsValue.fn := by
        rw [hctor] at hno ⊢
        exact getTruthy_ctor_of_lookup_none _ hno
      rw [hashColor_of_override _ name _ g1, hashColor_of_override s name _ g2]
    · rw [hashColor_result_no_override _ name hcoh2 hno2 hctor,
          hashColor_result_no_override s name hcoh hno hctor]

/-- C7 witness: the theorem applied at the empty initial state, the
identifier ash and the override FF0000. -/
theorem c7_override_roundtrip_witness :
    validateHexColor "#FF0000" = true ∧
    (hashColor (addCustomColor initialState (toID "ash") "#FF0000") "ash").1 =
      JsValue.str "#FF0000" :=
  ⟨by decide,
   (c7_override_roundtrip initialState "ash" "#FF0000" initialState_coherent
     rfl (by decide)).1⟩

/-- C8: when both a name and a color are supplied and the color fails the
hex-syntax validation, the set command ends in an error and leaves the
state untouched; and both commands preserve the invariant that every
override-table entry satisfies the hex syntax. -/
theorem c8_write_time_validation :
    (∀ (s : ColorState) (target : String),
      ((splitComma target).map jsTrim).getD 0 "" ≠ "" →
      ((splitComma target).map jsTrim).getD 1 "" ≠ "" →
      validateHexColor (((splitComma target).map jsTrim).getD 1 "") = false →
      (∃ msg, (ccSet s target).1 = CmdOutcome.error msg) ∧
        (ccSet s target).2 = s) ∧
    ∀ (s : ColorState) (target : String), OverridesValid s →
      OverridesValid (ccSet s target).2 ∧ OverridesValid (ccDelete s target).2 := by
  constructor
  · intro s target hname hcolor hval
    simp only [ccSet]
    split_ifs with h1 h2 h3
    · simp only [Bool.or_eq_true, decide_eq_true_eq] at h1
      rcases h1 with h | h
      · exact absurd h hname
      · exact absurd h hcolor
    · exact ⟨⟨"Usernames are not this long...", rfl⟩, rfl⟩
    · exact ⟨⟨"Invalid hex format. Use #RGB or #RRGGBB.", rfl⟩, rfl⟩
    · rw [hval] at h3
      exact absurd rfl h3
  · intro s target h
    exact ⟨ccSet_valid s target h, ccDelete_valid s target h⟩

/-- C8 witness: the first part of the theorem applied at the empty initial
state and an invalid color word. -/
theorem c8_write_time_validation_witness :
    validateHexColor (((splitComma "ash, red").map jsTrim).getD 1 "") = false ∧
    (ccSet initialState "ash, red").2 = initialState :=
  ⟨by decide,
   (c8_write_time_validation.1 initialState "ash, red" (by decide) (by decide)
     (by decide)).2⟩

/-- C9: a color lookup never writes to the override table: hashColor
leaves customColors unchanged, and its only possible state effect is
inserting the computed hash-derived value into the color cache. -/
theorem c9_lookup_frame (s : ColorState) (name : String) :
    (hashColor s name).2.customColors = s.customColors ∧
    ((hashColor s name).2.colorCache = s.colorCache ∨
     (hashColor s name).2.colorCache =
       setKey s.colorCache (toID name) (hashDerived (toID name))) := by
  refine ⟨hashColor_customColors_unchanged s name, ?_⟩
  cases ho : getTruthy s.customColors (toID name) with
  | some c => left; rw [hashColor_of_override s name c ho]
  | none =>
    cases hc : getTruthy s.colorCache (toID name) with
    | some c => left; rw [hashColor_of_no_override_cached s name c ho hc]
    | none => right; rw [hashColor_of_no_override_uncached s name ho hc]

/-- C10: after any sequence of lookups, override mutations and cache
clears starting from the empty maps, the state is cache coherent: every
key present in the color cache with no override entry holds exactly its
hash-derived color; hence a truthy value the cache read yields for such a
key is the fresh recomputation, and a full lookup for a non-prototype key
with no override entry serves exactly the hash-derived color. -/
theorem c10_cache_coherence (ops : List ColorOp) :
    Coherent (execOps ops) ∧
    (∀ name v, lookupKey (execOps ops).customColors (toID name) = none →
      getTruthy (execOps ops).colorCache (toID name) = some (JsValue.str v) →
      v = hashDerived (toID name)) ∧
    ∀ name, lookupKey (execOps ops).customColors (toID name) = none →
      toID name ≠ "constructor" →
      (hashColor (execOps ops) name).1 = JsValue.str (hashDerived (toID name)) :=
  ⟨execOps_coherent ops,
   fun name v hno hc =>
     execOps_coherent ops _ _ (getTruthy_eq_some _ _ _ hc).1 hno,
   fun name hno hctor =>
     hashColor_result_no_override _ name (execOps_coherent ops) hno hctor⟩

/-- C10 witness: the theorem applied to a concrete operation sequence that
adds and then removes an override. -/
theorem c10_cache_coherence_witness :
    lookupKey (execOps [ColorOp.add "bob" "#123456",
      ColorOp.remove "bob"]).customColors (toID "ash") = none ∧
    toID "ash" ≠ "constructor" ∧
    (hashColor (execOps [ColorOp.add "bob" "#123456",
      ColorOp.remove "bob"]) "ash").1 = JsValue.str (hashDerived (toID "ash")) :=
  ⟨by decide, by decide,
   (c10_cache_coherence [ColorOp.add "bob" "#123456",
      ColorOp.remove "bob"]).2.2 "ash" (by decide) (by decide)⟩

end SideServer
